import Mathlib

/-!
Verification of the process-based topographic extrusion engine of the
`dphox` repository (`src/dphox/component/multilayer.py`).

Modelling conventions:

* 2-D polygon sets (shapely `MultiPolygon` coverage) are modelled as finite
  sets of integer grid points, `Finset (ℤ × ℤ)`.  The polygon-set algebra
  that the engine requires from the external shapely adapter (union /
  intersection / difference, pure and normalising) acts as the
  corresponding set operations on coverage.  The isotropic `offset`
  dilation is an external capability and is threaded through as an
  explicit function parameter wherever the code calls `Pattern.offset`.
* Elevations and z-coordinates are fixed-precision decimals (3 decimal
  places of the design unit).  They are modelled as integers in those
  fixed-precision units, so two canonical string keys `_um_str(h)` of the
  Python dictionaries collide exactly when the integer keys are equal.
* Python `dict`s are modelled as association lists with Python assignment
  semantics: assignment to an existing key updates it in place, assignment
  to a fresh key appends it, insertion order is preserved.
* Where member-level (not coverage-level) structure matters
  (`_init_multilayer`, the export adapters) a `MultiPolygon` is modelled as
  a list of member polygon coverages.
-/

namespace Dphox

/-- Coverage of a 2-D polygon set, modelled as a finite set of grid points. -/
abbrev PolySet := Finset (ℤ × ℤ)

/-- Association-list lookup with Python `dict` semantics (keys are unique). -/
def alookup {κ ν : Type} [DecidableEq κ] : List (κ × ν) → κ → Option ν
  | [], _ => none
  | (k, v) :: m, k' => if k' = k then some v else alookup m k'

/-- Association-list assignment with Python `dict` semantics: update an
existing key in place, append a fresh key at the end. -/
def aset {κ ν : Type} [DecidableEq κ] : List (κ × ν) → κ → ν → List (κ × ν)
  | [], k, v => [(k, v)]
  | (k0, v0) :: m, k, v => if k = k0 then (k, v) :: m else (k0, v0) :: aset m k v

/-- Keys of an association list, in insertion order (`dict.keys()`). -/
def akeys {κ ν : Type} : List (κ × ν) → List κ := List.map Prod.fst

/-- Total lookup of a polygon-set value (all call sites in the engine access
keys that are present, so the default is never observed there). -/
def aget {κ : Type} [DecidableEq κ] (m : List (κ × PolySet)) (k : κ) : PolySet :=
  (alookup m k).getD ∅

/-- Boolean operation names allowed in a process-script relation
(spec §6: `operation ∈ {union, intersection, difference}`). -/
inductive BoolOp : Type
  | union
  | intersection
  | difference
deriving DecidableEq

/-- The external `Pattern.boolean_operation` dispatch, acting on coverage
(spec §4.1 polygon-set algebra contract). -/
def boolean_operation (a b : PolySet) : BoolOp → PolySet
  | .union => a ∪ b
  | .intersection => a ∩ b
  | .difference => a \ b

/-- Substring tag test: models Python's `tag in step` on step names
(`'etch' in step`, `'conformal' in step`, `'dope' in step`). -/
def hasTag (step tag : String) : Bool :=
  (List.range (step.toList.length + 1)).any
    (fun i => tag.toList.isPrefixOf (step.toList.drop i))

/-- Layer relation of a process step: `(layer, other_layer-or-absent, op)`. -/
abbrev Rel := String × Option String × BoolOp

/-- Ordered process script: step name (free text carrying the substring
tags) to its ordered list of layer relations. -/
abbrev ProcessScript := List (String × List Rel)

/-- Topographic height map: elevation key (fixed-precision integer) to the
cross-section occupying that elevation (`topo_map_dict`). -/
abbrev TopoMap := List (ℤ × PolySet)

/-- Extrusion table of `_build_layers`: derived sub-layer name to
(cross-section, z-interval). -/
abbrev ExtTable := List (String × (PolySet × ℤ × ℤ))

/-- Left-pad a natural number below 1000 to three decimal digits. -/
def pad3 (k : ℕ) : String :=
  if k < 10 then "00" ++ toString k else if k < 100 then "0" ++ toString k else toString k

/-- Modelled from the spec: `_um_str` (from `dphox.utils`, not under `src/`)
renders an elevation as its canonical fixed-precision decimal string
(3 decimal places), here from the integer fixed-precision representation. -/
def umStr (n : ℤ) : String :=
  (if n < 0 then "-" else "") ++ toString (n.natAbs / 1000) ++ "." ++ pad3 (n.natAbs % 1000)

/-- Derived sub-layer name `f'{layer}_{_um_str(lo)}_{_um_str(hi)}'` used by
`_update_layer_to_extrusion`. -/
def subLayerName (layer : String) (lo hi : ℤ) : String :=
  layer ++ "_" ++ umStr lo ++ "_" ++ umStr hi

/-- Descending insertion of an element into a descending-sorted list. -/
def insertDesc (x : ℤ) : List ℤ → List ℤ
  | [] => [x]
  | y :: ys => if x ≥ y then x :: y :: ys else y :: insertDesc x ys

/-- `sorted_heights`: the height-map keys sorted in descending order
(`sorted_heights.sort(reverse=True)`). -/
def sortDesc (l : List ℤ) : List ℤ := l.foldr insertDesc []

/-- One dilation of a cross-section: offset by `thickness`, restrict to the
raising pattern, union the growth back
(`topo[supr].offset(grow_d=thickness).intersection(raising).union(topo[supr])`). -/
def dilate (offset : PolySet → ℤ → PolySet) (thickness : ℤ) (raising s : PolySet) : PolySet :=
  (offset s thickness ∩ raising) ∪ s

/-- Body of the inner `for supr_h in sorted_heights` loop of
`_conformal_dilation`: at `count == 0` dilate the cross-section at `supr_h`
(the code comment says "dilate everything"); otherwise subtract the taller
`supr_h` cross-section from the `infr_h` one. -/
def conformalStep (offset : PolySet → ℤ → PolySet) (thickness : ℤ) (raising : PolySet)
    (count : ℕ) (infr : ℤ) (m' : TopoMap) (supr : ℤ) : TopoMap :=
  if count = 0 then
    aset m' supr (dilate offset thickness raising (aget m' supr))
  else if infr < supr then
    aset m' infr (aget m' infr \ aget m' supr)
  else m'

/-- Recursive worker for `_conformal_dilation`: `count` is the enumeration
index of `infr_h` in `sorted_heights` (`all` stays the full list, matching
the inner `for supr_h in sorted_heights` loop); after the inner loop the
`infr_h` entry is clipped to the bounding box. -/
def conformalGo (offset : PolySet → ℤ → PolySet) (thickness : ℤ) (raising B : PolySet)
    (all : List ℤ) : ℕ → List ℤ → TopoMap → TopoMap
  | _, [], m => m
  | count, infr :: rest, m =>
    let m2 := all.foldl (conformalStep offset thickness raising count infr) m
    conformalGo offset thickness raising B all (count + 1) rest
      (aset m2 infr (B ∩ aget m2 infr))

/-- `Multilayer._conformal_dilation` (multilayer.py lines 442-457): dilate
every elevation during the `count == 0` pass, then subtract each taller
elevation's cross-section from every shorter one and clip each processed
elevation to the bounding box. -/
def _conformal_dilation (offset : PolySet → ℤ → PolySet) (sorted_heights : List ℤ)
    (thickness : ℤ) (topo : TopoMap) (raising B : PolySet) : TopoMap :=
  conformalGo offset thickness raising B sorted_heights 0 sorted_heights topo

/-- Body of the `for elevation in sorted_heights` loop of `_raise_surface`:
split the elevation's cross-section by the raising pattern, keep the
unraised part at `elevation`, and union the raised part into
`elevation + thickness` (creating that elevation if absent). -/
def raiseStep (thickness : ℤ) (raising : PolySet) (m : TopoMap) (e : ℤ) : TopoMap :=
  let raised := raising ∩ aget m e
  let notRaised := aget m e \ raised
  let m2 := aset m e notRaised
  if (alookup m2 (e + thickness)).isSome then
    aset m2 (e + thickness) (aget m2 (e + thickness) ∪ raised)
  else
    aset m2 (e + thickness) raised

/-- `Multilayer._raise_surface` (multilayer.py lines 459-473): move the part
of every snapshot elevation covered by the raising pattern up to
`elevation + thickness`, leaving the rest behind. -/
def _raise_surface (sorted_heights : List ℤ) (thickness : ℤ) (topo : TopoMap)
    (raising : PolySet) : TopoMap :=
  sorted_heights.foldl (raiseStep thickness raising) topo

/-- `Multilayer._update_layer_to_extrusion` (multilayer.py lines 475-487):
diff the old and new height maps into extrusion entries, skipping empty
cross-sections. -/
def _update_layer_to_extrusion (layer : String) (heights : List ℤ)
    (topo oldTopo : TopoMap) (ext : ExtTable) : ExtTable :=
  heights.foldl (fun ex oldE =>
    (akeys topo).foldl (fun ex' newE =>
      if oldE ≥ newE then ex'
      else
        let ep := aget topo newE ∩ aget oldTopo oldE
        if ep = ∅ then ex'
        else aset ex' (subLayerName layer oldE newE) (ep, oldE, newE)) ex) ext

/-- The raising-pattern dispatch of `_build_layers` (multilayer.py lines
571-574): the bounding box minus the pattern for an etch step, the pattern
itself otherwise. -/
def raising_pattern_of (step : String) (B pattern : PolySet) : PolySet :=
  if hasTag step "etch" then B \ pattern else pattern

/-- The dope z-range recomputation shared by `_build_layers` (lines 565-569)
and `_build_layers_v0` (lines 498-503):
`(max(other_zmax - (zmax - zmin), other_zmin), other_zmax)`. -/
def dope_zrange (oz z : ℤ × ℤ) : ℤ × ℤ :=
  (max (oz.2 - (z.2 - z.1)) oz.1, oz.2)

/-- Unhandled Python failures the interpreter can raise. -/
inductive BuildError : Type
  | keyError (key : String)
  | nameError (var : String)
deriving DecidableEq

/-- Interpreter state across relations inside one `_build_layers` run:
`layer_to_pattern_processed`, `topo_map_dict`, `layer_to_extrusion`, the
function-scoped local `new_zrange` (which survives between relations), and
whether the local `topo_list` has ever been bound. -/
structure BState : Type where
  processed : List (String × PolySet)
  topo : TopoMap
  extrusion : ExtTable
  new_zrange : Option (ℤ × ℤ)
  topo_list_bound : Bool
deriving DecidableEq

/-- The initial height map of `_build_layers` (line 539):
`{_um_str(0): bounding_box}` — zero is the starting height. -/
def topoInit (B : PolySet) : TopoMap := [(0, B)]

/-- One relation of one step of `_build_layers` (multilayer.py lines
545-594), faithful to the Python control flow: the zrange lookup with its
caught `KeyError` (leaving the loop-carried `new_zrange` untouched on a
miss), the skip when the layer is not in the store, the sequential boolean
resolution, the dope recomputation (uncaught `KeyError` on the reference
layer, `NameError` when `new_zrange` was never bound), the raising pattern,
conformal dilation, surface raise and extrusion bookkeeping. -/
def processRelation (offset : PolySet → ℤ → PolySet) (B : PolySet)
    (zr : List (String × (ℤ × ℤ))) (step : String) (st : BState) (rel : Rel) :
    Except BuildError BState :=
  let layer := rel.1
  let other := rel.2.1
  let op := rel.2.2
  let nz : Option (ℤ × ℤ) :=
    match alookup zr layer with
    | some z => some z
    | none => st.new_zrange
  match alookup st.processed layer with
  | none => .ok { st with new_zrange := nz }
  | some cur =>
    let resolved : List (String × PolySet) × PolySet :=
      match other with
      | some o =>
        match alookup st.processed o with
        | some q =>
          let p := boolean_operation cur q op
          (aset st.processed layer p, p)
        | none => (st.processed, cur)
      | none => (st.processed, cur)
    let nzE : Except BuildError (ℤ × ℤ) :=
      if hasTag step "dope" ∧ op = BoolOp.intersection then
        match (match other with | some o => alookup zr o | none => none) with
        | none => .error (.keyError ((other.getD "None")))
        | some oz =>
          match nz with
          | none => .error (.nameError "new_zrange")
          | some z => .ok (dope_zrange oz z)
      else
        match nz with
        | none => .error (.nameError "new_zrange")
        | some z => .ok z
    match nzE with
    | .error e => .error e
    | .ok z =>
      let thickness := z.2 - z.1
      let raising := raising_pattern_of step B resolved.2
      let heights := akeys st.topo
      let sorted := sortDesc heights
      let t1 :=
        if hasTag step "conformal" then
          _conformal_dilation offset sorted thickness st.topo raising B
        else st.topo
      let t2 := _raise_surface sorted thickness t1 raising
      let ext := _update_layer_to_extrusion layer heights t2 st.topo st.extrusion
      .ok ⟨resolved.1, t2, ext, some z, true⟩

/-- `Multilayer._build_layers` (multilayer.py lines 520-597).  Besides the
returned extrusion table the method stores the final height map in
`self.topo` via the loop-local `topo_list`; both observable outputs are
returned here.  If no relation is ever processed, `topo_list` is unbound
and the final `Multilayer(topo_list)` raises a `NameError`. -/
def _build_layers (offset : PolySet → ℤ → PolySet) (B : PolySet)
    (store : List (String × PolySet)) (zr : List (String × (ℤ × ℤ)))
    (script : ProcessScript) : Except BuildError (ExtTable × TopoMap) :=
  let init : BState := ⟨store, topoInit B, [], none, false⟩
  match script.foldlM
      (fun s stepOps => stepOps.2.foldlM (processRelation offset B zr stepOps.1) s) init with
  | .error e => .error e
  | .ok st =>
    if st.topo_list_bound then .ok (st.extrusion, st.topo)
    else .error (.nameError "topo_list")

/-- Extrusion table of `_build_layers_v0`: raw layer name to
(cross-section, z-range). -/
abbrev ExtTableV0 := List (String × (PolySet × (ℤ × ℤ)))

/-- One relation of `_build_layers_v0` (multilayer.py lines 489-518): the
zrange is computed first (uncaught `KeyError` on a missing table entry, the
dope recomputation looking up the reference layer before the primary one),
then the relation is applied only when the layer is in the store and the
resolved pattern is non-empty. -/
def v0RelStep (store : List (String × PolySet)) (zr : List (String × (ℤ × ℤ)))
    (step : String) (acc : List (String × PolySet) × ExtTableV0) (rel : Rel) :
    Except BuildError (List (String × PolySet) × ExtTableV0) :=
  let layer := rel.1
  let other := rel.2.1
  let op := rel.2.2
  let nzE : Except BuildError (ℤ × ℤ) :=
    if hasTag step "dope" ∧ op = BoolOp.intersection then
      match (match other with | some o => alookup zr o | none => none) with
      | none => .error (.keyError ((other.getD "None")))
      | some oz =>
        match alookup zr layer with
        | none => .error (.keyError layer)
        | some z => .ok (dope_zrange oz z)
    else
      match alookup zr layer with
      | none => .error (.keyError layer)
      | some z => .ok z
  match nzE with
  | .error e => .error e
  | .ok nz =>
    match alookup store layer with
    | none => .ok acc
    | some _ =>
      let pattern :=
        match other with
        | some o =>
          if (alookup store o).isSome then
            boolean_operation (aget acc.1 layer) (aget acc.1 o) op
          else aget acc.1 layer
        | none => aget acc.1 layer
      if pattern = ∅ then .ok acc
      else .ok (aset acc.1 layer pattern, aset acc.2 layer (pattern, nz))

/-- `Multilayer._build_layers_v0` (multilayer.py lines 489-518): the
non-topographic extrusion path used by `to_trimesh_dict`. -/
def _build_layers_v0 (store : List (String × PolySet)) (zr : List (String × (ℤ × ℤ)))
    (script : ProcessScript) : Except BuildError ExtTableV0 :=
  match script.foldlM
      (fun acc stepOps => stepOps.2.foldlM (v0RelStep store zr stepOps.1) acc)
      (store, ([] : ExtTableV0)) with
  | .error e => .error e
  | .ok acc => .ok acc.2

/-- The base-layer truncation of `meep_geometry` (multilayer.py line 285):
`layer = layer.split('_')[0]`, the substring before the first underscore. -/
def meep_base_layer (s : String) : String :=
  String.mk (s.toList.takeWhile (fun c => c != '_'))

/-- The base-layer truncation of `to_trimesh_dict._add_trimesh_layer`
(multilayer.py line 377): `layer = layer.split('_')[0]`. -/
def trimesh_base_layer (s : String) : String :=
  String.mk (s.toList.takeWhile (fun c => c != '_'))

/-- Append values to a `defaultdict(list)` bucket: extend an existing key's
list in place, create the key at the end otherwise. -/
def bucketAppend {κ β : Type} [DecidableEq κ] (m : List (κ × List β)) (k : κ)
    (vs : List β) : List (κ × List β) :=
  match alookup m k with
  | some old => aset m k (old ++ vs)
  | none => aset m k vs

/-- Extrusion axis chosen by `meep_geometry`'s dimensionality dispatch:
`(0, 1, 0)` for a 2-D simulation, `(0, 0, 1)` otherwise. -/
def meepAxis (dimensions : ℤ) : ℤ × ℤ × ℤ :=
  if dimensions = 2 then (0, 1, 0) else (0, 0, 1)

/-- Failures `meep_geometry` can raise: the explicit `ValueError` for 1-D,
a propagated `_build_layers` failure, or the re-raised `KeyError` for a
missing zrange on the script-less path. -/
inductive MeepError : Type
  | valueErrorDim
  | buildError (e : BuildError)
  | keyErrorZrange (layer : String)
deriving DecidableEq

/-- A meep geometry batch: the inputs `_pattern_to_prisms` turns into
prisms (cross-section, material, z-range) plus the chosen extrusion axis;
prism construction itself is external (`meep`). -/
abbrev MeepBatch (μ : Type) := PolySet × μ × (ℤ × ℤ) × (ℤ × ℤ × ℤ)

/-- Grouping loop of `meep_geometry`'s process-extrusion path (multilayer.py
lines 284-289): truncate each sub-layer name at the first underscore, keep
only layers with a material, and accumulate batches per truncated name. -/
def meep_group {μ : Type} (l2m : List (String × μ)) (axis : ℤ × ℤ × ℤ)
    (ext : ExtTable) : List (String × List (MeepBatch μ)) :=
  ext.foldl (fun g e =>
    let key := meep_base_layer e.1
    match alookup l2m key with
    | some mat => bucketAppend g key [(e.2.1, mat, (e.2.2.1, e.2.2.2), axis)]
    | none => g) []

/-- Script-less path of `meep_geometry` (multilayer.py lines 290-298): raw
layers with a material, `KeyError` re-raised as a failure when a zrange is
missing. -/
def meepEntriesRaw {μ : Type} (zr : List (String × (ℤ × ℤ))) (l2m : List (String × μ))
    (axis : ℤ × ℤ × ℤ) : List (String × PolySet) → List (String × List (MeepBatch μ)) →
    Except MeepError (List (String × List (MeepBatch μ)))
  | [], g => .ok g
  | (layer, pat) :: rest, g =>
    match alookup l2m layer with
    | some mat =>
      match alookup zr layer with
      | some z => meepEntriesRaw zr l2m axis rest (aset g layer [(pat, mat, z, axis)])
      | none => .error (.keyErrorZrange layer)
    | none => meepEntriesRaw zr l2m axis rest g

/-- `Multilayer.meep_geometry` (multilayer.py lines 227-300): dimensionality
dispatch (1-D raises `ValueError` before any geometry is built), then
either the `_build_layers` extrusion path or the raw-layer path. -/
def meep_geometry {μ : Type} (offset : PolySet → ℤ → PolySet) (B : PolySet)
    (store : List (String × PolySet)) (zr : List (String × (ℤ × ℤ)))
    (script : Option ProcessScript) (l2m : List (String × μ)) (dimensions : ℤ) :
    Except MeepError (List (String × List (MeepBatch μ))) :=
  if dimensions = 1 then .error .valueErrorDim
  else
    let axis := meepAxis dimensions
    match script with
    | some s =>
      match _build_layers offset B store zr s with
      | .error e => .error (.buildError e)
      | .ok extTopo => .ok (meep_group l2m axis extTopo.1)
    | none => meepEntriesRaw zr l2m axis store []

/-- Mesh-merging loop of `to_trimesh_dict` (multilayer.py lines 375-394):
one mesh per truncated layer name, concatenating (new meshes first) with a
previously stored mesh for the same truncated name.  Extruding one
extrusion entry into meshes is external (`trimesh`) and passed as
`mkMesh`. -/
def trimesh_meshes {γ : Type} (mkMesh : PolySet → ℤ × ℤ → γ)
    (entries : ExtTableV0) : List (String × List γ) :=
  entries.foldl (fun meshes e =>
    let key := trimesh_base_layer e.1
    let lm := [mkMesh e.2.1 e.2.2]
    let lm2 := match alookup meshes key with
      | some old => lm ++ old
      | none => lm
    aset meshes key lm2) []

/-- `Multilayer._init_multilayer` (multilayer.py lines 302-320) for
`Pattern` components: build the `{comp: layer}` dictionary (a repeated
component keeps its first position with the last layer value), then extend
each layer's polygon list by each component's member polygons in order, and
wrap each list as a `MultiPolygon` (no merging of members).  Components are
abstract (`α`, compared by Python object identity) with their member
polygons given by `polys`. -/
def _init_multilayer {α : Type} [DecidableEq α] (pattern_to_layer : List (α × String))
    (polys : α → List PolySet) : List (String × List PolySet) :=
  let ptl := pattern_to_layer.foldl (fun d p => aset d p.1 p.2) []
  ptl.foldl (fun m p => bucketAppend m p.2 (polys p.1)) []

/-- Coverage of a list of member polygons (the union of the members). -/
def coverage : List PolySet → PolySet
  | [] => ∅
  | p :: ps => p ∪ coverage ps

/-- Modelled from the spec (§3 Mask Layer, §4.2): the layer store the spec
describes, where each layer's polygon set is the *merged* union of all
contributing shapes — a single member covering the union, so members never
overlap.  Used as the comparison point for the store the code builds. -/
def mergedLayerStoreSpec {α : Type} [DecidableEq α] (pattern_to_layer : List (α × String))
    (polys : α → List PolySet) : List (String × List PolySet) :=
  (_init_multilayer pattern_to_layer polys).map (fun p => (p.1, [coverage p.2]))

/-- Pairwise-disjoint member polygons (what "self-overlaps merged, not
overlapping member polygons" requires of a built layer). -/
def membersDisjoint : List PolySet → Bool
  | [] => true
  | p :: ps => ps.all (fun q => decide (p ∩ q = ∅)) && membersDisjoint ps

/-- Member polygons contributed to a layer name by a pair list, in order
(the concatenation the code actually stores). -/
def contributedPolys {α : Type} : List (α × String) → (α → List PolySet) → String →
    List PolySet
  | [], _, _ => []
  | p :: l, polys, name =>
    (if p.2 = name then polys p.1 else []) ++ contributedPolys l polys name

/-- Union of the final cross-sections of all elevations taller than `h`
(used to state the corrected conformal-dilation behaviour). -/
def tallerUnion (m : TopoMap) (h : ℤ) : List ℤ → PolySet
  | [] => ∅
  | h' :: t => (if h < h' then aget m h' else ∅) ∪ tallerUnion m h t

/-- The error component of a result (`None` when no failure was raised). -/
def exceptError {ε α : Type} : Except ε α → Option ε
  | .error e => some e
  | .ok _ => none

/-! ### Concrete example inputs (used in witnesses and counterexamples) -/

/-- A degenerate external offset operation (identity dilation). -/
def offsetId : PolySet → ℤ → PolySet := fun s _ => s

/-- An external offset operation growing a region one grid step in +x. -/
def offsetGrowX : PolySet → ℤ → PolySet :=
  fun s _ => s ∪ s.image (fun p => (p.1 + 1, p.2))

/-- A 2×2 example bounding box. -/
def exB : PolySet := {(0, 0), (0, 1), (1, 0), (1, 1)}

/-- A one-cell example mask pattern inside `exB`. -/
def exP : PolySet := {(0, 0)}

/-- Example short-elevation cross-section for conformal dilation. -/
def exS0 : PolySet := {(0, 0)}

/-- Example tall-elevation cross-section for conformal dilation. -/
def exS1 : PolySet := {(5, 0)}

/-- Example raising pattern for conformal dilation. -/
def exR : PolySet := {(1, 0)}

/-- Example bounding box for conformal dilation. -/
def exBc : PolySet := {(0, 0), (1, 0), (5, 0), (6, 0)}

/-- A second one-cell example mask pattern inside `exB`, disjoint from
`exP`. -/
def exP2 : PolySet := {(1, 1)}

/-- Example member-polygon assignment for abstract components (component
`n` contributes the single cell `(n, 0)`). -/
def exPolys : ℕ → List PolySet := fun n => [{((n : ℤ), 0)}]

/-! ### Association-list and set lemmas -/

theorem alookup_aset_self {κ ν : Type} [DecidableEq κ] (m : List (κ × ν)) (k : κ) (v : ν) :
    alookup (aset m k v) k = some v := by
  induction m with
  | nil => simp [aset, alookup]
  | cons p m ih =>
    by_cases h : k = p.1
    · simp [aset, alookup, h]
    · simp [aset, alookup, h, ih]

theorem alookup_aset_ne {κ ν : Type} [DecidableEq κ] (m : List (κ × ν)) (k k' : κ) (v : ν)
    (h : k' ≠ k) : alookup (aset m k v) k' = alookup m k' := by
  induction m with
  | nil => simp [aset, alookup, h]
  | cons p m ih =>
    by_cases h1 : k = p.1
    · subst h1
      simp [aset, alookup, h]
    · by_cases h2 : k' = p.1
      · simp [aset, alookup, h1, h2]
      · simp [aset, alookup, h1, h2, ih]

theorem aget_aset_self {κ : Type} [DecidableEq κ] (m : List (κ × PolySet)) (k : κ) (v : PolySet) :
    aget (aset m k v) k = v := by
  simp [aget, alookup_aset_self]

theorem aget_aset_ne {κ : Type} [DecidableEq κ] (m : List (κ × PolySet)) (k k' : κ) (v : PolySet)
    (h : k' ≠ k) : aget (aset m k v) k' = aget m k' := by
  simp [aget, alookup_aset_ne _ _ _ _ h]

theorem akeys_aset_mem {κ ν : Type} [DecidableEq κ] (m : List (κ × ν)) (k : κ) (v : ν)
    (h : k ∈ akeys m) : akeys (aset m k v) = akeys m := by
  induction m with
  | nil => simp [akeys] at h
  | cons p m ih =>
    obtain ⟨k0, v0⟩ := p
    simp only [akeys, List.map_cons, List.mem_cons] at h
    by_cases h1 : k = k0
    · simp [aset, akeys, h1]
    · rcases h with h | h
      · exact absurd h h1
      · have := ih h
        simp only [akeys] at this ⊢
        simp [aset, h1, this]

theorem akeys_aset_not_mem {κ ν : Type} [DecidableEq κ] (m : List (κ × ν)) (k : κ) (v : ν)
    (h : k ∉ akeys m) : akeys (aset m k v) = akeys m ++ [k] := by
  induction m with
  | nil => simp [aset, akeys]
  | cons p m ih =>
    obtain ⟨k0, v0⟩ := p
    simp only [akeys, List.map_cons, List.mem_cons] at h
    push_neg at h
    have := ih h.2
    simp only [akeys] at this ⊢
    simp [aset, h.1, this]

theorem mem_akeys_aset {κ ν : Type} [DecidableEq κ] (m : List (κ × ν)) (k k' : κ) (v : ν) :
    k' ∈ akeys (aset m k v) ↔ k' ∈ akeys m ∨ k' = k := by
  by_cases h : k ∈ akeys m
  · rw [akeys_aset_mem m k v h]
    constructor
    · exact Or.inl
    · rintro (h1 | rfl)
      · exact h1
      · exact h
  · rw [akeys_aset_not_mem m k v h]
    simp

theorem sdiff_inter_right (B Q : PolySet) : B \ (Q ∩ B) = B \ Q := by
  ext x
  simp only [Finset.mem_sdiff, Finset.mem_inter]
  tauto

/-! ### Single flat relation evaluation -/

theorem raise_single (B Q : PolySet) (T : ℤ) (hT : T ≠ 0) :
    _raise_surface [0] T [(0, B)] Q = [(0, B \ Q), (T, Q ∩ B)] := by
  simp [_raise_surface, raiseStep, aget, alookup, aset, hT, sdiff_inter_right]

theorem ext_single (L : String) (B X Y : PolySet) (T : ℤ) (hT : 0 < T) :
    _update_layer_to_extrusion L [0] [(0, X), (T, Y)] [(0, B)] [] =
      if Y ∩ B = ∅ then [] else [(subLayerName L 0 T, (Y ∩ B, 0, T))] := by
  have h1 : ¬ ((0:ℤ) ≥ T) := by omega
  have h2 : T ≠ 0 := by omega
  simp [_update_layer_to_extrusion, akeys, aget, alookup, aset, h1, h2]

theorem build_single (offset : PolySet → ℤ → PolySet) (B : PolySet)
    (store : List (String × PolySet)) (zr : List (String × (ℤ × ℤ)))
    (name L : String) (P : PolySet) (z0 z1 : ℤ) (op : BoolOp)
    (hL : alookup store L = some P) (hz : alookup zr L = some (z0, z1))
    (hD : hasTag name "dope" = false) (hC : hasTag name "conformal" = false)
    (hT : z0 < z1) :
    _build_layers offset B store zr [(name, [(L, none, op)])] =
      .ok (if raising_pattern_of name B P ∩ B = ∅ then []
             else [(subLayerName L 0 (z1 - z0), (raising_pattern_of name B P ∩ B, 0, z1 - z0))],
           [(0, B \ raising_pattern_of name B P), (z1 - z0, raising_pattern_of name B P ∩ B)]) := by
  have h1 : z1 - z0 ≠ 0 := by omega
  have h2 : (0:ℤ) < z1 - z0 := by omega
  simp only [_build_layers, List.foldlM, processRelation, topoInit, hL, hz, hD, hC]
  simp [akeys, sortDesc, insertDesc, raise_single B _ _ h1, ext_single L B _ _ _ h2]

theorem build_single_dope (offset : PolySet → ℤ → PolySet) (B : PolySet)
    (store : List (String × PolySet)) (zr : List (String × (ℤ × ℤ)))
    (name L O : String) (P : PolySet) (z0 z1 ozmin ozmax : ℤ)
    (hL : alookup store L = some P) (hO : alookup store O = none)
    (hz : alookup zr L = some (z0, z1)) (hoz : alookup zr O = some (ozmin, ozmax))
    (hDope : hasTag name "dope" = true) (hC : hasTag name "conformal" = false)
    (hT : 0 < ozmax - max (ozmax - (z1 - z0)) ozmin) :
    _build_layers offset B store zr [(name, [(L, some O, BoolOp.intersection)])] =
      .ok (if raising_pattern_of name B P ∩ B = ∅ then []
             else [(subLayerName L 0 (ozmax - max (ozmax - (z1 - z0)) ozmin),
                     (raising_pattern_of name B P ∩ B, 0,
                       ozmax - max (ozmax - (z1 - z0)) ozmin))],
           [(0, B \ raising_pattern_of name B P),
            (ozmax - max (ozmax - (z1 - z0)) ozmin, raising_pattern_of name B P ∩ B)]) := by
  have h1 : ozmax - max (ozmax - (z1 - z0)) ozmin ≠ 0 := by omega
  simp only [_build_layers, List.foldlM, processRelation, topoInit, hL, hz, hO, hoz, hDope, hC,
    dope_zrange]
  simp [akeys, sortDesc, insertDesc, raise_single B _ _ h1, ext_single L B _ _ _ hT]

/-! ### Conformal-dilation and raise-surface structure lemmas -/

theorem finset_sdiff_sdiff (a b c : PolySet) : (a \ b) \ c = a \ (b ∪ c) := by
  ext x
  simp only [Finset.mem_sdiff, Finset.mem_union]
  tauto

theorem tallerUnion_congr (m1 m2 : TopoMap) (h : ℤ) (l : List ℤ)
    (hc : ∀ h' ∈ l, h < h' → aget m1 h' = aget m2 h') :
    tallerUnion m1 h l = tallerUnion m2 h l := by
  induction l with
  | nil => rfl
  | cons h' t ih =>
    simp only [tallerUnion]
    rw [ih (fun x hx hlt => hc x (by simp [hx]) hlt)]
    by_cases hlt : h < h'
    · rw [hc h' (by simp) hlt]
    · simp [hlt]

theorem conformal_sub_pass (offset : PolySet → ℤ → PolySet) (t : ℤ) (R : PolySet)
    (count : ℕ) (hcount : count ≠ 0) (infr : ℤ) :
    ∀ (l : List ℤ) (m : TopoMap),
      (∀ k, k ≠ infr → aget (l.foldl (conformalStep offset t R count infr) m) k = aget m k) ∧
      aget (l.foldl (conformalStep offset t R count infr) m) infr =
        aget m infr \ tallerUnion m infr l := by
  intro l
  induction l with
  | nil =>
    intro m
    refine ⟨fun k _ => rfl, ?_⟩
    simp [tallerUnion]
  | cons supr l ih =>
    intro m
    by_cases hlt : infr < supr
    · have hstep : conformalStep offset t R count infr m supr =
          aset m infr (aget m infr \ aget m supr) := by
        simp [conformalStep, hcount, hlt]
      constructor
      · intro k hk
        rw [List.foldl_cons, hstep, (ih _).1 k hk, aget_aset_ne _ _ _ _ hk]
      · rw [List.foldl_cons, hstep, (ih _).2, aget_aset_self]
        have hTU : tallerUnion (aset m infr (aget m infr \ aget m supr)) infr l =
            tallerUnion m infr l :=
          tallerUnion_congr _ _ _ _ (fun h' _ hlt' => aget_aset_ne _ _ _ _ (by omega))
        rw [hTU, finset_sdiff_sdiff]
        simp only [tallerUnion, if_pos hlt]
    · have hstep : conformalStep offset t R count infr m supr = m := by
        simp [conformalStep, hcount, hlt]
      constructor
      · intro k hk
        rw [List.foldl_cons, hstep, (ih _).1 k hk]
      · rw [List.foldl_cons, hstep, (ih _).2]
        simp [tallerUnion, hlt]

theorem conformal_dil_pass (offset : PolySet → ℤ → PolySet) (t : ℤ) (R : PolySet) (infr : ℤ) :
    ∀ (l : List ℤ) (m : TopoMap), l.Nodup → ∀ k,
      aget (l.foldl (conformalStep offset t R 0 infr) m) k =
        if k ∈ l then dilate offset t R (aget m k) else aget m k := by
  intro l
  induction l with
  | nil =>
    intro m _ k
    simp
  | cons supr l ih =>
    intro m hnd k
    have hstep : conformalStep offset t R 0 infr m supr =
        aset m supr (dilate offset t R (aget m supr)) := by
      simp [conformalStep]
    obtain ⟨hn1, hn2⟩ := List.nodup_cons.mp hnd
    rw [List.foldl_cons, hstep, ih _ hn2 k]
    by_cases hk : k ∈ l
    · have hks : k ≠ supr := fun h => hn1 (h ▸ hk)
      rw [aget_aset_ne _ _ _ _ hks]
      simp [hk, hks]
    · by_cases hks : k = supr
      · subst hks
        rw [aget_aset_self]
        simp [hk]
      · rw [aget_aset_ne _ _ _ _ hks]
        simp [hk, hks]

theorem conformal_pass_keys (offset : PolySet → ℤ → PolySet) (t : ℤ) (R : PolySet)
    (count : ℕ) (infr : ℤ) :
    ∀ (l : List ℤ) (m : TopoMap), (∀ h ∈ l, h ∈ akeys m) → infr ∈ akeys m →
      akeys (l.foldl (conformalStep offset t R count infr) m) = akeys m := by
  intro l
  induction l with
  | nil =>
    intro m _ _
    rfl
  | cons supr l ih =>
    intro m hl hinfr
    have hsup : supr ∈ akeys m := hl supr (by simp)
    have hkeys : akeys (conformalStep offset t R count infr m supr) = akeys m := by
      by_cases hc : count = 0
      · simp [conformalStep, hc, akeys_aset_mem _ _ _ hsup]
      · by_cases hlt : infr < supr
        · simp [conformalStep, hc, hlt, akeys_aset_mem _ _ _ hinfr]
        · simp [conformalStep, hc, hlt]
    rw [List.foldl_cons,
      ih _ (fun h hh => hkeys ▸ hl h (by simp [hh])) (hkeys ▸ hinfr), hkeys]

theorem conformalGo_keys (offset : PolySet → ℤ → PolySet) (t : ℤ) (R B : PolySet)
    (all : List ℤ) :
    ∀ (rest : List ℤ) (count : ℕ) (m : TopoMap),
      (∀ h ∈ all, h ∈ akeys m) → (∀ h ∈ rest, h ∈ akeys m) →
      akeys (conformalGo offset t R B all count rest m) = akeys m := by
  intro rest
  induction rest with
  | nil =>
    intro count m _ _
    rfl
  | cons infr rest ih =>
    intro count m hall hrest
    have hinfr : infr ∈ akeys m := hrest infr (by simp)
    have h2 : akeys (all.foldl (conformalStep offset t R count infr) m) = akeys m :=
      conformal_pass_keys offset t R count infr all m hall hinfr
    have h3 : akeys (aset (all.foldl (conformalStep offset t R count infr) m) infr
        (B ∩ aget (all.foldl (conformalStep offset t R count infr) m) infr)) = akeys m := by
      rw [akeys_aset_mem _ _ _ (h2 ▸ hinfr), h2]
    simp only [conformalGo]
    rw [ih _ _ (fun h hh => h3 ▸ hall h hh) (fun h hh => h3 ▸ hrest h (by simp [hh])), h3]

theorem raiseStep_keys (t : ℤ) (R : PolySet) (m : TopoMap) (e : ℤ) :
    (∀ k ∈ akeys m, k ∈ akeys (raiseStep t R m e)) ∧
    (∀ k ∈ akeys (raiseStep t R m e), k ∈ akeys m ∨ k = e ∨ k = e + t) := by
  have hm2 : ∀ k, k ∈ akeys (aset m e (aget m e \ (R ∩ aget m e))) ↔
      k ∈ akeys m ∨ k = e := fun k => mem_akeys_aset m e k _
  unfold raiseStep
  by_cases hif : (alookup (aset m e (aget m e \ (R ∩ aget m e))) (e + t)).isSome
  · simp only [hif, if_true]
    constructor
    · intro k hk
      exact (mem_akeys_aset _ _ _ _).mpr (Or.inl ((hm2 k).mpr (Or.inl hk)))
    · intro k hk
      rcases (mem_akeys_aset _ _ _ _).mp hk with hk2 | hk2
      · rcases (hm2 k).mp hk2 with h | h
        · exact Or.inl h
        · exact Or.inr (Or.inl h)
      · exact Or.inr (Or.inr hk2)
  · simp only [hif, if_false]
    constructor
    · intro k hk
      exact (mem_akeys_aset _ _ _ _).mpr (Or.inl ((hm2 k).mpr (Or.inl hk)))
    · intro k hk
      rcases (mem_akeys_aset _ _ _ _).mp hk with hk2 | hk2
      · rcases (hm2 k).mp hk2 with h | h
        · exact Or.inl h
        · exact Or.inr (Or.inl h)
      · exact Or.inr (Or.inr hk2)

theorem raise_keys (t : ℤ) (R : PolySet) :
    ∀ (hs : List ℤ) (m : TopoMap),
      (∀ k ∈ akeys m, k ∈ akeys (_raise_surface hs t m R)) ∧
      (∀ k ∈ akeys (_raise_surface hs t m R),
        k ∈ akeys m ∨ ∃ e ∈ hs, k = e ∨ k = e + t) := by
  intro hs
  induction hs with
  | nil =>
    intro m
    exact ⟨fun k hk => hk, fun k hk => Or.inl hk⟩
  | cons e hs ih =>
    intro m
    have hstep := raiseStep_keys t R m e
    have hfold : _raise_surface (e :: hs) t m R = _raise_surface hs t (raiseStep t R m e) R := by
      simp [_raise_surface, List.foldl_cons]
    constructor
    · intro k hk
      rw [hfold]
      exact (ih _).1 k (hstep.1 k hk)
    · intro k hk
      rw [hfold] at hk
      rcases (ih _).2 k hk with hk2 | ⟨e', he', hke'⟩
      · rcases hstep.2 k hk2 with h | h
        · exact Or.inl h
        · exact Or.inr ⟨e, by simp, h⟩
      · exact Or.inr ⟨e', by simp [he'], hke'⟩

theorem alookup_append {κ ν : Type} [DecidableEq κ] :
    ∀ (m1 m2 : List (κ × ν)) (k : κ), alookup (m1 ++ m2) k =
      match alookup m1 k with
      | some v => some v
      | none => alookup m2 k := by
  intro m1
  induction m1 with
  | nil =>
    intro m2 k
    rfl
  | cons p m1 ih =>
    intro m2 k
    obtain ⟨k0, v0⟩ := p
    by_cases h : k = k0
    · simp [alookup, h]
    · simp [alookup, h, ih]

theorem aset_append_of_none {κ ν : Type} [DecidableEq κ] :
    ∀ (m : List (κ × ν)) (k : κ) (v : ν), alookup m k = none → aset m k v = m ++ [(k, v)] := by
  intro m
  induction m with
  | nil =>
    intro k v _
    rfl
  | cons p m ih =>
    intro k v h
    obtain ⟨k0, v0⟩ := p
    by_cases hk : k = k0
    · simp [alookup, hk] at h
    · simp only [alookup, if_neg hk] at h
      simp [aset, hk, ih k v h]

theorem dict_build_eq_of_nodup {α β : Type} [DecidableEq α] :
    ∀ (l : List (α × β)) (acc : List (α × β)),
      (l.map Prod.fst).Nodup → (∀ p ∈ l, alookup acc p.1 = none) →
      l.foldl (fun d p => aset d p.1 p.2) acc = acc ++ l := by
  intro l
  induction l with
  | nil =>
    intro acc _ _
    simp
  | cons p l ih =>
    intro acc hnd hnone
    rw [List.foldl_cons, aset_append_of_none acc p.1 p.2 (hnone p (by simp))]
    simp only [List.map_cons, List.nodup_cons] at hnd
    have hrest : ∀ q ∈ l, alookup (acc ++ [(p.1, p.2)]) q.1 = none := by
      intro q hq
      rw [alookup_append, hnone q (by simp [hq])]
      have hne : q.1 ≠ p.1 := by
        intro hEq
        exact hnd.1 (hEq ▸ List.mem_map_of_mem Prod.fst hq)
      simp [alookup, hne]
    rw [ih (acc ++ [(p.1, p.2)]) hnd.2 hrest]
    simp

theorem lookupJ_bucketAppend {κ β : Type} [DecidableEq κ] (m : List (κ × List β)) (k k' : κ)
    (vs : List β) :
    (alookup (bucketAppend m k vs) k').getD [] =
      (alookup m k').getD [] ++ (if k' = k then vs else []) := by
  unfold bucketAppend
  cases h : alookup m k with
  | some old =>
    by_cases hk : k' = k
    · subst hk
      rw [alookup_aset_self]
      simp [h]
    · rw [alookup_aset_ne _ _ _ _ hk]
      simp [hk]
  | none =>
    by_cases hk : k' = k
    · subst hk
      rw [alookup_aset_self]
      simp [h]
    · rw [alookup_aset_ne _ _ _ _ hk]
      simp [hk]

theorem lookupJ_group {α : Type} [DecidableEq α] (polys : α → List PolySet) :
    ∀ (l : List (α × String)) (m : List (String × List PolySet)) (name : String),
      (alookup (l.foldl (fun m' p => bucketAppend m' p.2 (polys p.1)) m) name).getD [] =
        (alookup m name).getD [] ++ contributedPolys l polys name := by
  intro l
  induction l with
  | nil =>
    intro m name
    simp [contributedPolys]
  | cons p l ih =>
    intro m name
    rw [List.foldl_cons, ih, lookupJ_bucketAppend]
    simp only [contributedPolys]
    rw [List.append_assoc]
    congr 1
    by_cases hn : name = p.2
    · simp [hn]
    · have hn' : ¬ p.2 = name := fun h => hn h.symm
      simp [hn, hn']

theorem alookup_merged :
    ∀ (m : List (String × List PolySet)) (k : String),
      alookup (m.map (fun p => (p.1, [coverage p.2]))) k =
        (alookup m k).map (fun l => [coverage l]) := by
  intro m
  induction m with
  | nil =>
    intro k
    rfl
  | cons p m ih =>
    intro k
    by_cases h : k = p.1 <;> simp [alookup, h, ih]

theorem meepEntriesRaw_error_indep {μ : Type} (zr : List (String × (ℤ × ℤ)))
    (l2m : List (String × μ)) (ax1 ax2 : ℤ × ℤ × ℤ) :
    ∀ (store : List (String × PolySet)) (g1 g2 : List (String × List (MeepBatch μ))),
      exceptError (meepEntriesRaw zr l2m ax1 store g1) =
        exceptError (meepEntriesRaw zr l2m ax2 store g2) := by
  intro store
  induction store with
  | nil =>
    intro g1 g2
    rfl
  | cons e rest ih =>
    intro g1 g2
    obtain ⟨layer, pat⟩ := e
    cases h1 : alookup l2m layer with
    | none =>
      simp only [meepEntriesRaw, h1]
      exact ih _ _
    | some mat =>
      cases h2 : alookup zr layer with
      | none => simp only [meepEntriesRaw, h1, h2]
      | some z =>
        simp only [meepEntriesRaw, h1, h2]
        exact ih _ _

theorem takeWhile_append_all {p : Char → Bool} :
    ∀ (xs ys : List Char), (∀ x ∈ xs, p x = true) →
      (xs ++ ys).takeWhile p = xs ++ ys.takeWhile p := by
  intro xs
  induction xs with
  | nil =>
    intro ys _
    simp
  | cons x xs ih =>
    intro ys hall
    simp [List.takeWhile, hall x (by simp), ih ys (fun y hy => hall y (by simp [hy]))]

theorem takeWhile_all {p : Char → Bool} :
    ∀ (xs : List Char), (∀ x ∈ xs, p x = true) → xs.takeWhile p = xs := by
  intro xs
  induction xs with
  | nil =>
    intro _
    rfl
  | cons x xs ih =>
    intro hall
    simp [List.takeWhile, hall x (by simp), ih (fun y hy => hall y (by simp [hy]))]

theorem takeWhile_append_stop {p : Char → Bool} :
    ∀ (xs ys : List Char), (∃ x ∈ xs, p x = false) →
      (xs ++ ys).takeWhile p = xs.takeWhile p := by
  intro xs
  induction xs with
  | nil =>
    intro ys h
    simp at h
  | cons x xs ih =>
    intro ys h
    cases hx : p x with
    | false => simp [List.takeWhile, hx]
    | true =>
      obtain ⟨y, hy, hpy⟩ := h
      rcases List.mem_cons.mp hy with rfl | hy2
      · rw [hx] at hpy
        exact absurd hpy (by simp)
      · simp [List.takeWhile, hx, ih ys ⟨y, hy2, hpy⟩]

theorem base_layer_append (s t : String) :
    meep_base_layer (s ++ "_" ++ t) = meep_base_layer s := by
  unfold meep_base_layer
  have htl : (s ++ "_" ++ t).toList = s.toList ++ '_' :: t.toList := by
    simp [String.toList]
  rw [htl]
  by_cases hall : ∀ x ∈ s.toList, (x != '_') = true
  · rw [takeWhile_append_all _ _ hall, takeWhile_all _ hall]
    simp [List.takeWhile]
  · push_neg at hall
    obtain ⟨x, hx, hpx⟩ := hall
    rw [takeWhile_append_stop _ _ ⟨x, hx, by simpa using hpx⟩]

theorem subLayerName_assoc (layer : String) (lo hi : ℤ) :
    subLayerName layer lo hi = layer ++ "_" ++ (umStr lo ++ "_" ++ umStr hi) := by
  simp [subLayerName, String.append_assoc]

theorem tallerUnion_none (m : TopoMap) (h : ℤ) (l : List ℤ) (hc : ∀ h' ∈ l, ¬ h < h') :
    tallerUnion m h l = ∅ := by
  induction l with
  | nil => rfl
  | cons h' t ih =>
    simp [tallerUnion, hc h' (by simp), ih (fun x hx => hc x (by simp [hx]))]

theorem conformal_go_spec (offset : PolySet → ℤ → PolySet) (t : ℤ) (R B : PolySet)
    (all : List ℤ) (D : ℤ → PolySet) :
    ∀ (rest : List ℤ) (count : ℕ) (m : TopoMap) (done : List ℤ),
      count ≠ 0 → all = done ++ rest → all.Pairwise (· > ·) →
      (∀ h ∈ rest, aget m h = D h) →
      (∀ k, k ∉ rest → aget (conformalGo offset t R B all count rest m) k = aget m k) ∧
      (∀ h ∈ rest, aget (conformalGo offset t R B all count rest m) h =
        B ∩ (D h \ tallerUnion (conformalGo offset t R B all count rest m) h all)) := by
  intro rest
  induction rest with
  | nil =>
    intro count m done _ _ _ _
    exact ⟨fun k _ => rfl, fun h hh => absurd hh (List.not_mem_nil h)⟩
  | cons infr rest ih =>
    intro count m done hcount hsplit hdesc hD
    have hPW : (done ++ infr :: rest).Pairwise (· > ·) := hsplit ▸ hdesc
    rw [List.pairwise_append] at hPW
    obtain ⟨Pdone, Pcons, Pcross⟩ := hPW
    have hInfrRest : ∀ h ∈ rest, infr > h := (List.pairwise_cons.mp Pcons).1
    have hInfrNotRest : infr ∉ rest := fun hmem => lt_irrefl infr (hInfrRest infr hmem)
    have hsub := conformal_sub_pass offset t R count hcount infr all m
    have hgo : conformalGo offset t R B all count (infr :: rest) m =
        conformalGo offset t R B all (count + 1) rest
          (aset (all.foldl (conformalStep offset t R count infr) m) infr
            (B ∩ aget (all.foldl (conformalStep offset t R count infr) m) infr)) := rfl
    set m3 := aset (all.foldl (conformalStep offset t R count infr) m) infr
      (B ∩ aget (all.foldl (conformalStep offset t R count infr) m) infr) with hm3def
    have hm3infr : aget m3 infr = B ∩ (aget m infr \ tallerUnion m infr all) := by
      rw [hm3def, aget_aset_self, hsub.2]
    have hm3ne : ∀ k, k ≠ infr → aget m3 k = aget m k := by
      intro k hk
      rw [hm3def, aget_aset_ne _ _ _ _ hk, hsub.1 k hk]
    have hDrest : ∀ h ∈ rest, aget m3 h = D h := by
      intro h hh
      have hne : h ≠ infr := fun hEq => hInfrNotRest (hEq ▸ hh)
      rw [hm3ne h hne]
      exact hD h (by simp [hh])
    obtain ⟨IH1, IH2⟩ := ih (count + 1) m3 (done ++ [infr]) (by omega)
      (by rw [hsplit]; simp) hdesc hDrest
    refine ⟨?_, ?_⟩
    · intro k hk
      have hk1 : k ≠ infr := fun hEq => hk (by simp [hEq])
      have hk2 : k ∉ rest := fun hmem => hk (by simp [hmem])
      rw [hgo, IH1 k hk2, hm3ne k hk1]
    · intro h hh
      rcases List.mem_cons.mp hh with rfl | hh2
      · rw [hgo, IH1 h hInfrNotRest, hm3infr]
        have hDinfr : aget m h = D h := hD h (by simp)
        have hTU : tallerUnion (conformalGo offset t R B all (count + 1) rest m3) h all =
            tallerUnion m h all := by
          apply tallerUnion_congr
          intro h' h'all hlt
          have h'done : h' ∈ done := by
            rw [hsplit] at h'all
            rcases List.mem_append.mp h'all with hmem | hmem
            · exact hmem
            · rcases List.mem_cons.mp hmem with hEq | hmem2
              · omega
              · have := hInfrRest h' hmem2
                omega
          have h'notrest : h' ∉ rest := by
            intro hmem
            have := Pcross h' h'done h' (by simp [hmem])
            omega
          have h'ne : h' ≠ h := by omega
          rw [IH1 h' h'notrest, hm3ne h' h'ne]
        rw [hTU, hDinfr]
      · rw [hgo]
        exact IH2 h hh2

/-! ### Claim theorems -/

/-- C1: for a layer store with design bounding box `B`, a mask layer `L`
present in the store with non-empty pattern `P ⊆ B` and z-range table
thickness `T = z1 - z0 > 0`, running the interpreter on a one-step,
one-relation script whose step name carries none of the `etch` /
`conformal` / `dope` tags and whose relation is `(L, absent, any-op)`,
starting from the initial height map `{0: B}`, yields an extrusion table
with exactly one entry — cross-section `P`, z-interval `(0, T)` — and a
final height map with exactly the keys `0` and `T`, where the
cross-section at `T` is `P` and the cross-section at `0` is `B \ P`. -/
theorem claim1_flat_deposition (offset : PolySet → ℤ → PolySet) (B : PolySet)
    (store : List (String × PolySet)) (zr : List (String × (ℤ × ℤ)))
    (name L : String) (P : PolySet) (z0 z1 : ℤ) (op : BoolOp)
    (hL : alookup store L = some P) (hz : alookup zr L = some (z0, z1))
    (hP : P ≠ ∅) (hPB : P ⊆ B) (hT : z0 < z1)
    (hE : hasTag name "etch" = false) (hC : hasTag name "conformal" = false)
    (hD : hasTag name "dope" = false) :
    _build_layers offset B store zr [(name, [(L, none, op)])] =
      .ok ([(subLayerName L 0 (z1 - z0), (P, 0, z1 - z0))],
           [(0, B \ P), (z1 - z0, P)]) := by
  have hQ : raising_pattern_of name B P = P := by simp [raising_pattern_of, hE]
  have hPB' : P ∩ B = P := Finset.inter_eq_left.mpr hPB
  rw [build_single offset B store zr name L P z0 z1 op hL hz hD hC hT]
  rw [hQ, hPB', if_neg hP]

/-- Witness for C1 at a concrete single-layer store and deposition step. -/
theorem claim1_flat_deposition_witness :
    _build_layers offsetId exB [("si", exP)] [("si", (0, 200))]
      [("dep", [("si", none, BoolOp.union)])] =
      .ok ([(subLayerName "si" 0 200, (exP, 0, 200))], [(0, exB \ exP), (200, exP)]) :=
  claim1_flat_deposition offsetId exB [("si", exP)] [("si", (0, 200))] "dep" "si" exP 0 200
    BoolOp.union (by decide) (by decide) (by decide) (by decide) (by decide) (by decide)
    (by decide) (by decide)

/-- C5: for a relation processed by the interpreter, the raising pattern is
the bounding-box polygon minus the resolved pattern when the step name
carries the `etch` tag, and the resolved pattern itself otherwise — shown
both on the dispatch itself and observably on a one-relation run, where the
region that gains elevation `T` is `B \ P` for an etch step and `P`
otherwise. -/
theorem claim5_raising_pattern (offset : PolySet → ℤ → PolySet) (B : PolySet)
    (store : List (String × PolySet)) (zr : List (String × (ℤ × ℤ)))
    (name L : String) (P : PolySet) (z0 z1 : ℤ) (op : BoolOp)
    (hL : alookup store L = some P) (hz : alookup zr L = some (z0, z1))
    (hP : P ≠ ∅) (hPB : P ⊆ B) (hBP : ¬ B ⊆ P) (hT : z0 < z1)
    (hC : hasTag name "conformal" = false) (hD : hasTag name "dope" = false) :
    (hasTag name "etch" = true →
      raising_pattern_of name B P = B \ P ∧
      _build_layers offset B store zr [(name, [(L, none, op)])] =
        .ok ([(subLayerName L 0 (z1 - z0), (B \ P, 0, z1 - z0))],
             [(0, P), (z1 - z0, B \ P)])) ∧
    (hasTag name "etch" = false →
      raising_pattern_of name B P = P ∧
      _build_layers offset B store zr [(name, [(L, none, op)])] =
        .ok ([(subLayerName L 0 (z1 - z0), (P, 0, z1 - z0))],
             [(0, B \ P), (z1 - z0, P)])) := by
  constructor
  · intro hE
    have hQ : raising_pattern_of name B P = B \ P := by simp [raising_pattern_of, hE]
    have hQB : (B \ P) ∩ B = B \ P := Finset.inter_eq_left.mpr (Finset.sdiff_subset)
    have hBB : B \ (B \ P) = P := Finset.sdiff_sdiff_eq_self hPB
    have hne : B \ P ≠ ∅ := fun h => hBP (Finset.sdiff_eq_empty_iff_subset.mp h)
    refine ⟨hQ, ?_⟩
    rw [build_single offset B store zr name L P z0 z1 op hL hz hD hC hT]
    rw [hQ, hQB, hBB, if_neg hne]
  · intro hE
    have hQ : raising_pattern_of name B P = P := by simp [raising_pattern_of, hE]
    have hPB' : P ∩ B = P := Finset.inter_eq_left.mpr hPB
    refine ⟨hQ, ?_⟩
    rw [build_single offset B store zr name L P z0 z1 op hL hz hD hC hT]
    rw [hQ, hPB', if_neg hP]

/-- Witness for C5: one concrete etch step and one concrete deposition
step over the same one-layer store. -/
theorem claim5_raising_pattern_witness :
    (raising_pattern_of "etch1" exB exP = exB \ exP ∧
      _build_layers offsetId exB [("si", exP)] [("si", (0, 200))]
        [("etch1", [("si", none, BoolOp.union)])] =
        .ok ([(subLayerName "si" 0 200, (exB \ exP, 0, 200))],
             [(0, exP), (200, exB \ exP)])) ∧
    (raising_pattern_of "dep" exB exP = exP ∧
      _build_layers offsetId exB [("si", exP)] [("si", (0, 200))]
        [("dep", [("si", none, BoolOp.union)])] =
        .ok ([(subLayerName "si" 0 200, (exP, 0, 200))],
             [(0, exB \ exP), (200, exP)])) :=
  ⟨(claim5_raising_pattern offsetId exB [("si", exP)] [("si", (0, 200))] "etch1" "si" exP 0 200
      BoolOp.union (by decide) (by decide) (by decide) (by decide) (by decide) (by decide)
      (by decide) (by decide)).1 (by decide),
   (claim5_raising_pattern offsetId exB [("si", exP)] [("si", (0, 200))] "dep" "si" exP 0 200
      BoolOp.union (by decide) (by decide) (by decide) (by decide) (by decide) (by decide)
      (by decide) (by decide)).2 (by decide)⟩

/-- C4: for a `dope`-tagged step with an `intersection` relation whose
primary and reference layers both have z-ranges in the original table, the
z-range used for the relation is
`(max(other_zmax - (zmax - zmin), other_zmin), other_zmax)` with the
layer's thickness taken from the original table: the formula holds of
`dope_zrange`, `_build_layers_v0` records exactly that z-range in its
extrusion entry, and `_build_layers` raises by its thickness. -/
theorem claim4_dope_zrange (offset : PolySet → ℤ → PolySet) (B : PolySet)
    (store : List (String × PolySet)) (zr : List (String × (ℤ × ℤ)))
    (name L O : String) (P : PolySet) (z0 z1 ozmin ozmax : ℤ)
    (hL : alookup store L = some P) (hO : alookup store O = none)
    (hz : alookup zr L = some (z0, z1)) (hoz : alookup zr O = some (ozmin, ozmax))
    (hDope : hasTag name "dope" = true) (hE : hasTag name "etch" = false)
    (hC : hasTag name "conformal" = false)
    (hP : P ≠ ∅) (hPB : P ⊆ B)
    (hT : 0 < ozmax - max (ozmax - (z1 - z0)) ozmin) :
    dope_zrange (ozmin, ozmax) (z0, z1) = (max (ozmax - (z1 - z0)) ozmin, ozmax) ∧
    _build_layers_v0 store zr [(name, [(L, some O, BoolOp.intersection)])] =
      .ok [(L, (P, (max (ozmax - (z1 - z0)) ozmin, ozmax)))] ∧
    _build_layers offset B store zr [(name, [(L, some O, BoolOp.intersection)])] =
      .ok ([(subLayerName L 0 (ozmax - max (ozmax - (z1 - z0)) ozmin),
              (P, 0, ozmax - max (ozmax - (z1 - z0)) ozmin))],
           [(0, B \ P), (ozmax - max (ozmax - (z1 - z0)) ozmin, P)]) := by
  refine ⟨rfl, ?_, ?_⟩
  · have hP' : aget store L = P := by simp [aget, hL]
    simp [_build_layers_v0, List.foldlM, v0RelStep, hL, hO, hz, hoz, hDope, hP', hP,
      dope_zrange, aset]
  · have hQ : raising_pattern_of name B P = P := by simp [raising_pattern_of, hE]
    have hPB' : P ∩ B = P := Finset.inter_eq_left.mpr hPB
    rw [build_single_dope offset B store zr name L O P z0 z1 ozmin ozmax hL hO hz hoz hDope
      hC hT]
    rw [hQ, hPB', if_neg hP]

/-- Witness for C4 at the spec's own example: reference z-range `(0, 1.0)`
and layer z-range `(0, 0.2)` yield the dope z-range `(0.8, 1.0)` (in
fixed-precision units: `(800, 1000)`). -/
theorem claim4_dope_zrange_witness :
    dope_zrange (0, 1000) (0, 200) = (800, 1000) ∧
    _build_layers_v0 [("si", exP)] [("si", (0, 200)), ("poly", (0, 1000))]
      [("dope1", [("si", some "poly", BoolOp.intersection)])] =
      .ok [("si", (exP, (800, 1000)))] ∧
    _build_layers offsetId exB [("si", exP)] [("si", (0, 200)), ("poly", (0, 1000))]
      [("dope1", [("si", some "poly", BoolOp.intersection)])] =
      .ok ([(subLayerName "si" 0 200, (exP, 0, 200))], [(0, exB \ exP), (200, exP)]) := by
  have h := claim4_dope_zrange offsetId exB [("si", exP)]
    [("si", (0, 200)), ("poly", (0, 1000))] "dope1" "si" "poly" exP 0 200 0 1000
    (by decide) (by decide) (by decide) (by decide) (by decide) (by decide) (by decide)
    (by decide) (by decide) (by decide)
  exact ⟨h.1, h.2.1, h.2.2⟩

/-- C2 fails on the code: when a relation's primary layer is in the layer
store but missing from the z-range table, the caught `KeyError` leaves the
local `new_zrange` unbound or stale instead of skipping the relation.
First conjunct: with no previous binding the run aborts with an unhandled
`NameError` (`new_zrange` referenced before assignment at
`thickness = new_zrange[1] - new_zrange[0]`).  Second conjunct: in a
two-relation step where only the second relation's layer `"b"` is missing
from the table, the run completes but the affected entry is *not* omitted —
`"b"` is extruded with the stale z-range left over from layer `"a"`. -/
theorem claim2_missing_zrange_not_skipped :
    _build_layers offsetId exB [("a", exP)] [] [("step", [("a", none, BoolOp.union)])] =
      .error (.nameError "new_zrange") ∧
    _build_layers offsetId exB [("a", exP), ("b", exP2)] [("a", (0, 100))]
      [("dep", [("a", none, BoolOp.union), ("b", none, BoolOp.union)])] =
      .ok ([(subLayerName "a" 0 100, (exP, 0, 100)),
            (subLayerName "b" 0 100, (exP2, 0, 100))],
           [(0, {(0, 1), (1, 0)}), (100, {(0, 0), (1, 1)}), (200, (∅ : PolySet))]) := by
  constructor
  · rfl
  · rfl

/-- C9: with an empty process script, or one in which no relation's primary
layer is present in the layer store, `_build_layers` never binds the local
`topo_list` and the final `Multilayer(topo_list)` raises an unhandled
`NameError`, which propagates through the public `meep_geometry` entry
point. -/
theorem claim9_unbound_topo_list {μ : Type} (offset : PolySet → ℤ → PolySet) (B : PolySet)
    (store : List (String × PolySet)) (zr : List (String × (ℤ × ℤ)))
    (script : ProcessScript) (l2m : List (String × μ))
    (h : script = [] ∨ ∀ s ∈ script, ∀ r ∈ s.2, alookup store r.1 = none) :
    _build_layers offset B store zr script = .error (.nameError "topo_list") ∧
    meep_geometry offset B store zr (some script) l2m 3 =
      .error (.buildError (.nameError "topo_list")) := by
  have hall : ∀ s ∈ script, ∀ r ∈ s.2, alookup store r.1 = none := by
    rcases h with rfl | h
    · intro s hs
      simp at hs
    · exact h
  have skip_rel : ∀ (step : String) (rels : List Rel) (st : BState),
      (∀ r ∈ rels, alookup st.processed r.1 = none) →
      ∃ nz, rels.foldlM (processRelation offset B zr step) st =
        .ok { st with new_zrange := nz } := by
    intro step rels
    induction rels with
    | nil =>
      intro st _
      exact ⟨st.new_zrange, rfl⟩
    | cons r rels ih =>
      intro st hst
      have h1 : alookup st.processed r.1 = none := hst r (by simp)
      obtain ⟨nz0, hstep⟩ : ∃ nz0, processRelation offset B zr step st r =
          .ok { st with new_zrange := nz0 } :=
        ⟨(match alookup zr r.1 with
          | some z => some z
          | none => st.new_zrange), by simp [processRelation, h1]⟩
      obtain ⟨nz, hrest⟩ := ih { st with new_zrange := nz0 }
        (by intro r' hr'; exact hst r' (by simp [hr']))
      exact ⟨nz, by simp [List.foldlM, hstep, hrest, bind, Except.bind]⟩
  have skip_all : ∀ (sc : ProcessScript) (st : BState),
      (∀ s ∈ sc, ∀ r ∈ s.2, alookup st.processed r.1 = none) →
      ∃ nz, sc.foldlM
          (fun s stepOps => stepOps.2.foldlM (processRelation offset B zr stepOps.1) s) st =
        .ok { st with new_zrange := nz } := by
    intro sc
    induction sc with
    | nil =>
      intro st _
      exact ⟨st.new_zrange, rfl⟩
    | cons so sc ih =>
      intro st hst
      obtain ⟨nz1, h1⟩ := skip_rel so.1 so.2 st (hst so (by simp))
      obtain ⟨nz2, h2⟩ := ih { st with new_zrange := nz1 }
        (by intro s hs r hr; exact hst s (by simp [hs]) r hr)
      exact ⟨nz2, by simp [List.foldlM, h1, h2, bind, Except.bind]⟩
  obtain ⟨nz, hrun⟩ := skip_all script ⟨store, topoInit B, [], none, false⟩ hall
  have hbuild : _build_layers offset B store zr script = .error (.nameError "topo_list") := by
    simp [_build_layers, hrun]
  refine ⟨hbuild, ?_⟩
  have h3 : (3 : ℤ) ≠ 1 := by omega
  simp [meep_geometry, hbuild, h3]

/-- Witness for C9: the empty script and a script whose only relation
references a layer absent from the store. -/
theorem claim9_unbound_topo_list_witness :
    (_build_layers offsetId exB [("a", exP)] [] [] = .error (.nameError "topo_list") ∧
      meep_geometry (μ := ℕ) offsetId exB [("a", exP)] [] (some []) [] 3 =
        .error (.buildError (.nameError "topo_list"))) ∧
    (_build_layers offsetId exB [("a", exP)] [("missing", (0, 100))]
        [("dep", [("missing", none, BoolOp.union)])] = .error (.nameError "topo_list") ∧
      meep_geometry (μ := ℕ) offsetId exB [("a", exP)] [("missing", (0, 100))]
        (some [("dep", [("missing", none, BoolOp.union)])]) [] 3 =
        .error (.buildError (.nameError "topo_list"))) :=
  ⟨claim9_unbound_topo_list offsetId exB [("a", exP)] [] [] [] (Or.inl rfl),
   claim9_unbound_topo_list offsetId exB [("a", exP)] [("missing", (0, 100))]
     [("dep", [("missing", none, BoolOp.union)])] [] (Or.inr (by decide))⟩

/-- C3 is false of the code: with two elevations `10 > 0`, a raising
pattern permitting growth at `(1,0)` and an offset that grows one step in
+x, the shorter elevation's final cross-section contains the point `(1,0)`
that is not in its original cross-section `{(0,0)}`.  Were the shorter
elevation only modified by subtracting taller cross-sections and clipping
to the bounding box (as the claim states), its final cross-section would be
a subset of its original one.  The grow-by-offset operation is in fact
applied to every elevation during the `count == 0` pass, not only to the
tallest. -/
theorem claim3_conformal_counterexample :
    ¬ (aget (_conformal_dilation offsetGrowX [10, 0] 1 [(0, exS0), (10, exS1)] exR exBc) 0
        ⊆ exS0) := by decide

/-- C3 amended: during conformal dilation over strictly descending
elevations, the grow-by-offset-and-union operation is applied to *every*
existing elevation's cross-section (during the `count == 0` pass — the code
comment says "dilate everything"), and then every elevation's final
cross-section is its *dilated* original minus the final cross-sections of
all taller elevations, clipped to the bounding box:
`final(h) = B ∩ (dilate(orig(h)) \ ⋃ {final(h') : h' taller})`. -/
theorem claim3_conformal_dilation_amended (offset : PolySet → ℤ → PolySet) (t : ℤ)
    (R B : PolySet) (topo : TopoMap) (hs : List ℤ) (hdesc : hs.Pairwise (· > ·)) :
    ∀ h ∈ hs, aget (_conformal_dilation offset hs t topo R B) h =
      B ∩ (dilate offset t R (aget topo h) \
        tallerUnion (_conformal_dilation offset hs t topo R B) h hs) := by
  cases hs with
  | nil =>
    intro h hh
    simp at hh
  | cons h0 rest =>
    have hnd : (h0 :: rest).Nodup := List.Pairwise.imp (fun hgt => ne_of_gt hgt) hdesc
    obtain ⟨hnd1, hnd2⟩ := List.nodup_cons.mp hnd
    have hRest : ∀ h ∈ rest, h0 > h := (List.pairwise_cons.mp hdesc).1
    have hdil := conformal_dil_pass offset t R h0 (h0 :: rest) topo hnd
    have hgo : _conformal_dilation offset (h0 :: rest) t topo R B =
        conformalGo offset t R B (h0 :: rest) 1 rest
          (aset ((h0 :: rest).foldl (conformalStep offset t R 0 h0) topo) h0
            (B ∩ aget ((h0 :: rest).foldl (conformalStep offset t R 0 h0) topo) h0)) := rfl
    set m2 := (h0 :: rest).foldl (conformalStep offset t R 0 h0) topo with hm2def
    set m3 := aset m2 h0 (B ∩ aget m2 h0) with hm3def
    have hm3h0 : aget m3 h0 = B ∩ dilate offset t R (aget topo h0) := by
      rw [hm3def, aget_aset_self, hdil h0]
      simp
    have hm3ne : ∀ k, k ≠ h0 → k ∈ rest → aget m3 k = dilate offset t R (aget topo k) := by
      intro k hk hkr
      rw [hm3def, aget_aset_ne _ _ _ _ hk, hdil k]
      simp [hkr]
    obtain ⟨IH1, IH2⟩ := conformal_go_spec offset t R B (h0 :: rest)
      (fun k => dilate offset t R (aget topo k)) rest 1 m3 [h0] (by omega) (by simp) hdesc
      (fun h hh => hm3ne h (fun hEq => hnd1 (hEq ▸ hh)) hh)
    intro h hh
    rcases List.mem_cons.mp hh with rfl | hh2
    · rw [hgo, IH1 h hnd1, hm3h0]
      have hTU : tallerUnion (conformalGo offset t R B (h :: rest) 1 rest m3) h (h :: rest) =
          ∅ := by
        apply tallerUnion_none
        intro h' hmem
        rcases List.mem_cons.mp hmem with rfl | hmem2
        · omega
        · have := hRest h' hmem2
          omega
      rw [hTU]
      simp
    · rw [hgo]
      exact IH2 h hh2

/-- Witness for the amended C3 at the same concrete input as the
counterexample, at the shorter elevation `0`. -/
theorem claim3_conformal_dilation_amended_witness :
    aget (_conformal_dilation offsetGrowX [10, 0] 1 [(0, exS0), (10, exS1)] exR exBc) 0 =
      exBc ∩ (dilate offsetGrowX 1 exR (aget [(0, exS0), (10, exS1)] 0) \
        tallerUnion (_conformal_dilation offsetGrowX [10, 0] 1 [(0, exS0), (10, exS1)] exR exBc)
          0 [10, 0]) :=
  claim3_conformal_dilation_amended offsetGrowX 1 exR exBc [(0, exS0), (10, exS1)] [10, 0]
    (by decide) 0 (by decide)

/-- C6: the height map contains elevation `0` mapped to the full design
bounding box before the first step runs (`topoInit`), and for heights `hs`
snapshot from the current keys, conformal dilation preserves the key set
exactly while surface raise never removes a key and adds at most the keys
`elevation + thickness` for snapshot elevations. -/
theorem claim6_height_map_keys (offset : PolySet → ℤ → PolySet) (t : ℤ) (R B : PolySet)
    (m : TopoMap) (hs : List ℤ) (hsub : ∀ h ∈ hs, h ∈ akeys m) :
    (alookup (topoInit B) 0 = some B ∧ akeys (topoInit B) = [0]) ∧
    akeys (_conformal_dilation offset hs t m R B) = akeys m ∧
    (∀ k ∈ akeys m, k ∈ akeys (_raise_surface hs t m R)) ∧
    (∀ k ∈ akeys (_raise_surface hs t m R), k ∈ akeys m ∨ ∃ e ∈ hs, k = e + t) := by
  refine ⟨⟨rfl, rfl⟩, ?_, ?_, ?_⟩
  · exact conformalGo_keys offset t R B hs hs 0 m hsub hsub
  · exact (raise_keys t R hs m).1
  · intro k hk
    rcases (raise_keys t R hs m).2 k hk with h | ⟨e, he, hee⟩
    · exact Or.inl h
    · rcases hee with hke | hke
      · exact Or.inl (hke ▸ hsub e he)
      · exact Or.inr ⟨e, he, hke⟩

/-- Witness for C6 at a concrete two-elevation height map. -/
theorem claim6_height_map_keys_witness :
    ((alookup (topoInit exBc) 0 = some exBc ∧ akeys (topoInit exBc) = [0]) ∧
      akeys (_conformal_dilation offsetGrowX [10, 0] 1 [(0, exS0), (10, exS1)] exR exBc) =
        akeys [(0, exS0), (10, exS1)] ∧
      (∀ k ∈ akeys [(0, exS0), (10, exS1)],
        k ∈ akeys (_raise_surface [10, 0] 1 [(0, exS0), (10, exS1)] exR)) ∧
      (∀ k ∈ akeys (_raise_surface [10, 0] 1 [(0, exS0), (10, exS1)] exR),
        k ∈ akeys [(0, exS0), (10, exS1)] ∨ ∃ e ∈ [10, 0], k = e + 1)) :=
  claim6_height_map_keys offsetGrowX 1 exR exBc [(0, exS0), (10, exS1)] [10, 0] (by decide)

/-- C7 is false of the code on two counts.  First conjunct: two distinct
components contributing the same cell to layer `"a"` leave the built layer
with two *overlapping member polygons* — `MultiPolygon(polys)` concatenates
the contributions, it does not merge self-overlaps.  Second conjunct: the
`{comp: layer}` dictionary built first dedupes repeated components by
identity (last layer wins), so aliasing one component under two layer
names loses the first layer entirely instead of mapping it to the union of
its contributing pairs. -/
theorem claim7_layer_store_counterexample :
    membersDisjoint ((alookup (_init_multilayer [((0 : ℕ), "a"), (1, "a")]
        (fun _ => [exP])) "a").getD []) = false ∧
    alookup (_init_multilayer [((0 : ℕ), "a"), (0, "b")] (fun _ => [exP])) "a" = none :=
  ⟨by decide, by decide⟩

/-- C7 amended: for a pair list whose components are pairwise distinct
objects, the layer store maps each layer name to the *concatenation* of
the member polygons contributed by all pairs sharing that name, in order;
the coverage equals the union of the contributions (identical in coverage
to the spec's merged store), but overlapping contributions remain distinct,
possibly overlapping member polygons.  Building twice from the same pair
list yields identical results. -/
theorem claim7_layer_store_amended {α : Type} [DecidableEq α] (pairs : List (α × String))
    (polys : α → List PolySet) (hnd : (pairs.map Prod.fst).Nodup) :
    _init_multilayer pairs polys = _init_multilayer pairs polys ∧
    (∀ name, (alookup (_init_multilayer pairs polys) name).getD [] =
      contributedPolys pairs polys name) ∧
    (∀ name, coverage ((alookup (_init_multilayer pairs polys) name).getD []) =
      coverage ((alookup (mergedLayerStoreSpec pairs polys) name).getD [])) := by
  have hdict : pairs.foldl (fun d p => aset d p.1 p.2) [] = pairs :=
    (dict_build_eq_of_nodup pairs [] hnd (fun p _ => rfl)).trans (by simp)
  have hmain : ∀ name, (alookup (_init_multilayer pairs polys) name).getD [] =
      contributedPolys pairs polys name := by
    intro name
    simp only [_init_multilayer]
    rw [hdict, lookupJ_group polys pairs [] name]
    rfl
  refine ⟨rfl, hmain, ?_⟩
  intro name
  simp only [mergedLayerStoreSpec]
  rw [alookup_merged]
  cases h : alookup (_init_multilayer pairs polys) name with
  | none => simp
  | some L =>
    simp only [Option.map_some, Option.getD_some]
    simp [coverage]

/-- Witness for the amended C7 at a three-pair list with two pairs sharing
layer `"a"`, evaluated at that layer. -/
theorem claim7_layer_store_amended_witness :
    (alookup (_init_multilayer [((0 : ℕ), "a"), (1, "b"), (2, "a")] exPolys) "a").getD [] =
      contributedPolys [((0 : ℕ), "a"), (1, "b"), (2, "a")] exPolys "a" ∧
    coverage ((alookup (_init_multilayer [((0 : ℕ), "a"), (1, "b"), (2, "a")] exPolys)
        "a").getD []) =
      coverage ((alookup (mergedLayerStoreSpec [((0 : ℕ), "a"), (1, "b"), (2, "a")] exPolys)
        "a").getD []) :=
  ⟨(claim7_layer_store_amended [((0 : ℕ), "a"), (1, "b"), (2, "a")] exPolys
      (by decide)).2.1 "a",
   (claim7_layer_store_amended [((0 : ℕ), "a"), (1, "b"), (2, "a")] exPolys
      (by decide)).2.2 "a"⟩

/-- C8: requesting the simulation-geometry builder with `dimensions = 1`
raises the fatal `ValueError` before any geometry is produced, for every
input; with `dimensions = 2` and `dimensions = 3` the run raises exactly
the same error or none at all — any failure is independent of the
dimensionality choice. -/
theorem claim8_meep_dimensions {μ : Type} (offset : PolySet → ℤ → PolySet) (B : PolySet)
    (store : List (String × PolySet)) (zr : List (String × (ℤ × ℤ)))
    (script : Option ProcessScript) (l2m : List (String × μ)) :
    meep_geometry offset B store zr script l2m 1 = .error .valueErrorDim ∧
    exceptError (meep_geometry offset B store zr script l2m 2) =
      exceptError (meep_geometry offset B store zr script l2m 3) := by
  constructor
  · simp [meep_geometry]
  · have h2 : (2 : ℤ) ≠ 1 := by omega
    have h3 : (3 : ℤ) ≠ 1 := by omega
    simp only [meep_geometry, if_neg h2, if_neg h3]
    cases script with
    | none => exact meepEntriesRaw_error_indep zr l2m _ _ store [] []
    | some s =>
      cases hb : _build_layers offset B store zr s with
      | error e => simp [hb, exceptError]
      | ok extTopo => simp [hb, exceptError]

/-- C10: both export adapters truncate a sub-layer name to the substring
before the first underscore (`layer.split('_')[0]`), so for two distinct
layers whose own names contain an underscore and share that prefix, the
derived sub-layers collapse to the same truncated name, and both the meep
grouping and the trimesh mesh-merging put both layers' geometry under one
key matched to the truncated name's material. -/
theorem claim10_base_layer_split {μ : Type} (l1 l2 : String) (mat : μ) (ax : ℤ × ℤ × ℤ)
    (a b c d : ℤ) (p1 p2 : PolySet) (za zb zc zd : ℤ)
    (hne : l1 ≠ l2) (hu1 : '_' ∈ l1.toList) (hu2 : '_' ∈ l2.toList)
    (hpre : meep_base_layer l1 = meep_base_layer l2) :
    meep_base_layer (subLayerName l1 a b) = meep_base_layer l1 ∧
    meep_base_layer (subLayerName l2 c d) = meep_base_layer l2 ∧
    trimesh_base_layer l1 = meep_base_layer l2 ∧
    meep_group [(meep_base_layer l1, mat)] ax
        [(subLayerName l1 a b, (p1, za, zb)), (subLayerName l2 c d, (p2, zc, zd))] =
      [(meep_base_layer l1, [(p1, mat, (za, zb), ax), (p2, mat, (zc, zd), ax)])] ∧
    trimesh_meshes (fun p z => (p, z)) [(l1, (p1, (za, zb))), (l2, (p2, (zc, zd)))] =
      [(meep_base_layer l1, [(p2, (zc, zd)), (p1, (za, zb))])] := by
  have hb1 : meep_base_layer (subLayerName l1 a b) = meep_base_layer l1 := by
    rw [subLayerName_assoc, base_layer_append]
  have hb2 : meep_base_layer (subLayerName l2 c d) = meep_base_layer l2 := by
    rw [subLayerName_assoc, base_layer_append]
  have htm : ∀ s, trimesh_base_layer s = meep_base_layer s := fun s => rfl
  refine ⟨hb1, hb2, (htm l1).trans hpre, ?_, ?_⟩
  · simp [meep_group, bucketAppend, alookup, aset, hb1, hb2, ← hpre]
  · simp [trimesh_meshes, htm, alookup, aset, ← hpre]

/-- Witness for C10 at the layers `"si_n"` and `"si_p"`, both of which
collapse to the base name `"si"` and share one mesh and the `"si"`
material. -/
theorem claim10_base_layer_split_witness :
    meep_base_layer (subLayerName "si_n" 0 200) = meep_base_layer "si_n" ∧
    meep_base_layer (subLayerName "si_p" 0 200) = meep_base_layer "si_p" ∧
    trimesh_base_layer "si_n" = meep_base_layer "si_p" ∧
    meep_group [(meep_base_layer "si_n", (7 : ℕ))] (0, 0, 1)
        [(subLayerName "si_n" 0 200, (exP, 0, 200)),
         (subLayerName "si_p" 0 200, (exP2, 0, 200))] =
      [(meep_base_layer "si_n", [(exP, 7, (0, 200), (0, 0, 1)),
                                 (exP2, 7, (0, 200), (0, 0, 1))])] ∧
    trimesh_meshes (fun p z => (p, z)) [("si_n", (exP, (0, 200))), ("si_p", (exP2, (0, 200)))] =
      [(meep_base_layer "si_n", [(exP2, (0, 200)), (exP, (0, 200))])] :=
  claim10_base_layer_split "si_n" "si_p" 7 (0, 0, 1) 0 200 0 200 exP exP2 0 200 0 200
    (by decide) (by decide) (by decide) (by decide)

end Dphox
